import Mathlib

/-!
Shallow embedding of the news-feed pipeline engine (src/server.py,
src/config.py, src/models.py, src/discord_sender.py, src/scoring.py).

Timestamps are integer seconds; scores are rationals (the code stores
SQL floats, but every operation the pipeline performs on a score is exact
comparison and copying, so an exact numeric type is faithful).  The store
(SQLite via SQLAlchemy) is modelled as explicit state: feeds, feed entries,
and the three queues (pending, scored, error) hold rows in insertion order,
matching `query(...).first()` on autoincrement tables.  Each `with
get_session()` block in the Python is one committed transaction; functions
that run several blocks return the list of committed states in order.

External collaborators (the RSS fetch, the scoring HTTP call, the Discord
send, and the XML element extractors) are taken as function parameters:
the pipeline code treats them as opaque calls and only inspects their
results, which the parameter types reproduce (Except for raised
exceptions, Option for absent elements).
-/

set_option maxRecDepth 10000

namespace NewsFeed

/-- Timestamps in whole seconds (datetime values in the Python; the
pipeline only compares instants and adds whole-second durations to them,
so integer seconds are faithful to every operation it performs). -/
abbrev Time := ℤ

/-- src/config.py: MIN_FREQUENCY_SECONDS = 300 -/
def MIN_FREQUENCY_SECONDS : Int := 300

/-- src/config.py: MAX_FREQUENCY_SECONDS = 14400 -/
def MAX_FREQUENCY_SECONDS : Int := 14400

/-- src/config.py: DEFAULT_FREQUENCY_SECONDS = 3600 -/
def DEFAULT_FREQUENCY_SECONDS : Int := 3600

/-- src/config.py: FREQUENCY_ADJUSTMENT_SECONDS = 60 -/
def FREQUENCY_ADJUSTMENT_SECONDS : Int := 60

/-- src/config.py: DISCORD_MIN_SCORE = 8.0 -/
def DISCORD_MIN_SCORE : ℚ := 8

/-- src/config.py: DISCORD_RATE_LIMIT_BACKOFF_SECONDS = 300 -/
def DISCORD_RATE_LIMIT_BACKOFF_SECONDS : ℤ := 300

/-- src/models.py, class Feed: one polled RSS source. -/
structure Feed where
  id : Nat
  url : String
  name : String
  last_checked : Option Time
  frequency_seconds : Int
deriving Repr, DecidableEq

/-- src/models.py, class FeedEntry: one discovered item.  `score` and
`scored_at` are the nullable rank columns. -/
structure FeedEntry where
  id : Nat
  feed_id : Nat
  guid : String
  xml_content : String
  score : Option ℚ
  scored_at : Option Time
deriving Repr, DecidableEq

/-- The transactional store: feeds and feed entries plus the three queue
tables.  A queue row is the id of the FeedEntry it references (PendingEntry
and ScoredEntry carry nothing else the pipeline reads); an error row also
carries its `error_message`.  Lists are in insertion order, so `.first()`
on an autoincrement table is the head.  `next_entry_id` models the
FeedEntry autoincrement counter. -/
structure Store where
  feeds : List Feed
  entries : List FeedEntry
  pending : List Nat
  scored : List Nat
  errors : List (Nat × String)
  next_entry_id : Nat
deriving Repr, DecidableEq

/-- src/rss.py RSSEntry as consumed by server.py: guid, optional title,
and the re-serialised XML payload. -/
structure RssEntry where
  guid : String
  title : Option String
  xml_content : String
deriving Repr, DecidableEq

/-- Comparison used by `order_by(Feed.last_checked.asc().nullsfirst())`:
NULL sorts before every timestamp. -/
def lastCheckedLT : Option Time → Option Time → Bool
  | none, none => false
  | none, some _ => true
  | some _, none => false
  | some a, some b => decide (a < b)

/-- `session.query(Feed).order_by(Feed.last_checked.asc().nullsfirst()).first()`:
the feed checked longest ago, NULLs first; the earliest-inserted row wins
ties (a tie order the SQL leaves open; no claim depends on it). -/
def selectFeed : List Feed → Option Feed
  | [] => none
  | f :: rest =>
    match selectFeed rest with
    | none => some f
    | some g => if lastCheckedLT g.last_checked f.last_checked then some g else some f

/-- `feed.last_checked = now` committed alone (the fetch-failure branch of
process_next_feed). -/
def setLastChecked (feeds : List Feed) (fid : Nat) (now : Time) : List Feed :=
  feeds.map fun f =>
    if f.id == fid then { f with last_checked := some now } else f

/-- The end of the success branch of process_next_feed: `feed.last_checked
= now` together with the new `frequency_seconds`, committed in the same
transaction as the inserts. -/
def updateFeedAfterPoll (feeds : List Feed) (fid : Nat) (now : Time) (freq : Int) :
    List Feed :=
  feeds.map fun f =>
    if f.id == fid then { f with last_checked := some now, frequency_seconds := freq } else f

/-- server.py lines 105-119: for each fetched entry, query FeedEntry by
`(feed_id, guid)`; when absent, insert the FeedEntry (flushed, so later
iterations of the same loop see it) and a PendingEntry, and count it as
new.  Returns the updated store and `new_count`. -/
def insertEntries (fid : Nat) (es : List RssEntry) (st : Store) : Store × Nat :=
  match es with
  | [] => (st, 0)
  | e :: rest =>
    if st.entries.any (fun fe => fe.feed_id == fid && fe.guid == e.guid) then
      insertEntries fid rest st
    else
      let fe : FeedEntry :=
        { id := st.next_entry_id, feed_id := fid, guid := e.guid,
          xml_content := e.xml_content, score := none, scored_at := none }
      let r := insertEntries fid rest
        { st with entries := st.entries ++ [fe],
                  pending := st.pending ++ [fe.id],
                  next_entry_id := st.next_entry_id + 1 }
      (r.1, r.2 + 1)

/-- Proof decomposition of insertEntries (not itself a source
translation): the list of FeedEntry rows the loop creates, in creation
order.  insertEntries appends exactly these rows to `entries` and their
ids to `pending`; the correspondence is proved in insertEntries_decomp. -/
def insertedEntries (fid : Nat) (es : List RssEntry) (st : Store) : List FeedEntry :=
  match es with
  | [] => []
  | e :: rest =>
    if st.entries.any (fun fe => fe.feed_id == fid && fe.guid == e.guid) then
      insertedEntries fid rest st
    else
      let fe : FeedEntry :=
        { id := st.next_entry_id, feed_id := fid, guid := e.guid,
          xml_content := e.xml_content, score := none, scored_at := none }
      fe :: insertedEntries fid rest
        { st with entries := st.entries ++ [fe],
                  pending := st.pending ++ [fe.id],
                  next_entry_id := st.next_entry_id + 1 }

/-- server.py process_next_feed (lines 79-130), one polling iteration.
`fetch` is `fetch_rss_entries`; an exception is an `Except.error`.  The
whole body runs in a single `with get_session()` transaction.  Returns
whether a feed was processed and the committed store. -/
def process_next_feed (fetch : String → Except String (List RssEntry)) (now : Time)
    (st : Store) : Bool × Store :=
  match selectFeed st.feeds with
  | none => (false, st)
  | some feed =>
    if (match feed.last_checked with
        | some lc => decide (now < lc + feed.frequency_seconds)
        | none => false) then (false, st)
    else
      match fetch feed.url with
      | .error _ =>
          (true, { st with feeds := setLastChecked st.feeds feed.id now })
      | .ok es =>
          let r := insertEntries feed.id es st
          let newFreq : Int :=
            if r.2 > 0 then
              max MIN_FREQUENCY_SECONDS (feed.frequency_seconds - FREQUENCY_ADJUSTMENT_SECONDS)
            else
              min MAX_FREQUENCY_SECONDS (feed.frequency_seconds + FREQUENCY_ADJUSTMENT_SECONDS)
          (true, { r.1 with feeds := updateFeedAfterPoll r.1.feeds feed.id now newFreq })

/-- server.py process_next_pending (lines 151-198), one scoring iteration.
`extractLink` is `extract_link_from_xml` (scoring.py); `ranker` is the
`get_score_for_url` call: `Except.error msg` is a raised ScoringError,
`Except.ok rank?` a parsed JSON dict whose optional "rank" field is
`rank?` (`result.get("rank", 0)` is `rank?.getD 0`).  The body runs THREE
separate `with get_session()` transactions: one that claims the head
PendingEntry and deletes it, then, after the network call, one that writes
the ErrorEntry or the ScoredEntry.  The returned list holds the committed
states in order (the last one is the state after the iteration); the Bool
is the Python return value.  The entry lookup cannot fail under the
PendingEntry → FeedEntry foreign key; the `none` branch is dead code kept
only for totality. -/
def process_next_pending (extractLink : String → Option String)
    (ranker : String → Except String (Option ℚ)) (now : Time) (st : Store) :
    Bool × List Store :=
  match st.pending with
  | [] => (false, [st])
  | pid :: rest =>
    match st.entries.find? (fun fe => fe.id == pid) with
    | none => (false, [st])
    | some fe =>
      let link := (extractLink fe.xml_content).getD fe.guid
      let st1 : Store := { st with pending := rest }
      match ranker link with
      | .error msg =>
          (true, [st1, { st1 with errors := st1.errors ++ [(pid, msg)] }])
      | .ok rank? =>
          let score := rank?.getD 0
          if score == 0 then
            (true, [st1, { st1 with errors := st1.errors ++ [(pid, "Score returned 0")] }])
          else
            (true, [st1,
              { st1 with
                entries := st1.entries.map fun e =>
                  if e.id == pid then { e with score := some score, scored_at := some now }
                  else e,
                scored := st1.scored ++ [pid] }])

/-- Result of `send_news_item`: `ret b` is a normal return of `b`, `exn
msg` a raised exception whose `str(err)` is `msg`. -/
inductive PubResult where
  | ret (success : Bool)
  | exn (msg : String)
deriving Repr, DecidableEq

/-- One invocation of `send_news_item(title, link, score, feed_name,
summary)` as made by process_next_scored. -/
structure SendCall where
  title : String
  link : String
  score : ℚ
  feed_name : String
  summary : Option String
deriving Repr, DecidableEq

/-- Return value of process_next_scored: Python False / True /
"rate_limited". -/
inductive ScoredOutcome where
  | noWork
  | done
  | rateLimited
deriving Repr, DecidableEq

/-- Character-list comparison: the second list heads the first. -/
def charsStartWith : List Char → List Char → Bool
  | _, [] => true
  | [], _ :: _ => false
  | c :: cs, p :: ps => c == p && charsStartWith cs ps

/-- Character-list containment at any offset. -/
def charsContain (s pat : List Char) : Bool :=
  charsStartWith s pat ||
    match s with
    | [] => false
    | _ :: rest => charsContain rest pat

/-- Substring test, Python `pat in s`, on the code points of the two
strings. -/
def strContainsSub (s pat : String) : Bool :=
  charsContain s.data pat.data

/-- server.py lines 271-272: `err_str = str(err).lower()`, then
`"rate limit" in err_str or "too many" in err_str`.  Python str.lower on
the relevant alphabet is per-character lowercasing. -/
def isRateLimitMessage (msg : String) : Bool :=
  let e := String.mk (msg.data.map Char.toLower)
  strContainsSub e "rate limit" || strContainsSub e "too many"

/-- server.py process_next_scored (lines 234-275), one publishing
iteration.  The first transaction claims the head ScoredEntry, captures
the entry data (`score = entry.score or 0`, which is the numeric value of
`fe.score.getD 0` since Python's `or` maps both None and 0.0 to 0), and
deletes the slot regardless of outcome; the threshold check and the
Discord send happen outside any transaction and write nothing back.
Returns the outcome, the committed store, and the list of
`send_news_item` invocations made.  The entry lookup cannot fail under
the ScoredEntry → FeedEntry foreign key; the `none` branch is dead code
kept only for totality. -/
def process_next_scored
    (extractTitle extractLink extractSummary : String → Option String)
    (send : SendCall → PubResult) (st : Store) :
    ScoredOutcome × Store × List SendCall :=
  match st.scored with
  | [] => (.noWork, st, [])
  | sid :: rest =>
    match st.entries.find? (fun fe => fe.id == sid) with
    | none => (.noWork, st, [])
    | some fe =>
      let score := fe.score.getD 0
      let feedName :=
        match st.feeds.find? (fun f => f.id == fe.feed_id) with
        | some f => f.name
        | none => "Unknown"
      let st1 : Store := { st with scored := rest }
      if score < DISCORD_MIN_SCORE then (.done, st1, [])
      else
        let call : SendCall :=
          { title := (extractTitle fe.xml_content).getD ("Entry " ++ toString sid),
            link := (extractLink fe.xml_content).getD "",
            score := score,
            feed_name := feedName,
            summary := extractSummary fe.xml_content }
        match send call with
        | .ret _ => (.done, st1, [call])
        | .exn msg =>
            if isRateLimitMessage msg then (.rateLimited, st1, [call])
            else (.done, st1, [call])

/-- The tail of one discord_worker loop iteration that actually calls
process_next_scored (server.py lines 220-225): a "rate_limited" result
arms `backoff_until := now + DISCORD_RATE_LIMIT_BACKOFF_SECONDS`, any
other result leaves the backoff disarmed. -/
def discord_step_run
    (extractTitle extractLink extractSummary : String → Option String)
    (send : SendCall → PubResult) (now : Time) (st : Store) :
    Option Time × Store × List SendCall :=
  let r := process_next_scored extractTitle extractLink extractSummary send st
  match r.1 with
  | .rateLimited => (some (now + DISCORD_RATE_LIMIT_BACKOFF_SECONDS), r.2.1, r.2.2)
  | _ => (none, r.2.1, r.2.2)

/-- One iteration of the discord_worker loop (server.py lines 208-228) at
instant `now` with worker-local state `backoff_until`: while the backoff
is armed and in the future the worker only sleeps (no store access, no
send); once it has passed, the same iteration clears it and processes. -/
def discord_worker_step
    (extractTitle extractLink extractSummary : String → Option String)
    (send : SendCall → PubResult) (backoff_until : Option Time) (now : Time)
    (st : Store) : Option Time × Store × List SendCall :=
  match backoff_until with
  | some b =>
    if now < b then (some b, st, [])
    else discord_step_run extractTitle extractLink extractSummary send now st
  | none => discord_step_run extractTitle extractLink extractSummary send now st

/-- discord_sender.py format_news_message (lines 47-68).  `fmtScore`
renders the Python `f-string` piece `score:.1f` (binary floating-point
formatting, outside the exact model and never inspected by the pipeline);
the two characters after the closing asterisks reproduce the literal
bytes of the source line.  A summary is rendered only when truthy (Python
`if summary:`): present and non-empty; longer than 200 characters, its
first 197 are kept and three dots appended. -/
def format_news_lines (fmtScore : ℚ → String) (title : String) (link : String)
    (score : ℚ) (feed_name : String) (summary : Option String) : List String :=
  ["**" ++ fmtScore score ++ "** Â· " ++ feed_name, "", "**" ++ title ++ "**"]
    ++ (match summary with
        | some s =>
          if s.isEmpty then []
          else [if s.length > 200 then s.take 197 ++ "..." else s]
        | none => [])
    ++ ["", link]

/-- The final `"\n".join(lines)` of format_news_message. -/
def format_news_message (fmtScore : ℚ → String) (title : String) (link : String)
    (score : ℚ) (feed_name : String) (summary : Option String) : String :=
  String.intercalate "\n" (format_news_lines fmtScore title link score feed_name summary)

/-- The summary line exactly as claim C8 words it: the summary truncated
to 200 characters with a trailing "...".  Written from the claim text,
not the source, to be compared against format_news_message. -/
def claimed_summary_line (s : String) : String :=
  s.take 200 ++ "..."

/-- Running the PollingScheduler iteration once per element of `times`
(the instants at which the iterations fire), in order. -/
def pollRuns (fetch : String → Except String (List RssEntry)) (times : List Time)
    (st : Store) : Store :=
  match times with
  | [] => st
  | t :: ts => pollRuns fetch ts (process_next_feed fetch t st).2

/-- Observation: the entry id sits in the pending queue. -/
def inPending (st : Store) (i : Nat) : Bool :=
  st.pending.any (fun x => x == i)

/-- Observation: the entry id sits in the scored queue. -/
def inScored (st : Store) (i : Nat) : Bool :=
  st.scored.any (fun x => x == i)

/-- Observation: the entry id has a row in the error queue. -/
def inErrors (st : Store) (i : Nat) : Bool :=
  st.errors.any (fun x => x.1 == i)

/-- Observation: the error messages recorded for an entry id, in order. -/
def errorMessagesOf (st : Store) (i : Nat) : List String :=
  (st.errors.filter (fun x => x.1 == i)).map Prod.snd

/-- Observation: the stored score column of the entry with this id (outer
`none` when no such entry row exists). -/
def entryScoreOf (st : Store) (i : Nat) : Option (Option ℚ) :=
  (st.entries.find? (fun fe => fe.id == i)).map FeedEntry.score

/-- Observation: the stored scored_at column of the entry with this id. -/
def entryScoredAtOf (st : Store) (i : Nat) : Option (Option Time) :=
  (st.entries.find? (fun fe => fe.id == i)).map FeedEntry.scored_at

/-- Observation: the first feed row with this id. -/
def findFeed (st : Store) (fid : Nat) : Option Feed :=
  st.feeds.find? (fun f => f.id == fid)

/-- Observation: number of entry rows for `(fid, guid)` — the spec's
unique-item-per-source multiplicity. -/
def countItems (st : Store) (fid : Nat) (g : String) : Nat :=
  (st.entries.filter (fun fe => fe.feed_id == fid && fe.guid == g)).length

/-- Observation: number of pending rows whose entry is the `(fid, guid)`
item. -/
def pendingCountForGuid (st : Store) (fid : Nat) (g : String) : Nat :=
  (st.pending.filter (fun i =>
      st.entries.any (fun fe => fe.id == i && fe.feed_id == fid && fe.guid == g))).length

/-- Two stores agree on entries and on all three queues (feeds aside). -/
def sameEntriesAndQueues (a b : Store) : Prop :=
  a.entries = b.entries ∧ a.pending = b.pending ∧ a.scored = b.scored ∧
  a.errors = b.errors ∧ a.next_entry_id = b.next_entry_id

instance (a b : Store) : Decidable (sameEntriesAndQueues a b) := by
  unfold sameEntriesAndQueues
  infer_instance

/-- Claim C3's first alternative at an item: a ScoredSlot exists and the
stored rank is strictly positive.  Written from the claim text, to be
compared against the pipeline's behaviour. -/
def scoredWithPositiveRank (st : Store) (i : Nat) : Bool :=
  inScored st i &&
    (match entryScoreOf st i with
     | some (some q) => decide (0 < q)
     | _ => false)

/-- The alternative that actually governs the success branch of
process_next_pending: a ScoredSlot exists and the stored rank is nonzero. -/
def scoredWithNonzeroRank (st : Store) (i : Nat) : Bool :=
  inScored st i &&
    (match entryScoreOf st i with
     | some (some q) => decide (q ≠ 0)
     | _ => false)

/-
Concrete fixtures used by witnesses and counterexamples.
-/

/-- Fixture: a feed never checked, at the default interval. -/
def exFeed : Feed :=
  { id := 1, url := "u", name := "F", last_checked := none, frequency_seconds := 3600 }

/-- Fixture: an unscored entry of exFeed. -/
def exEntry : FeedEntry :=
  { id := 1, feed_id := 1, guid := "g1", xml_content := "x1", score := none, scored_at := none }

/-- Fixture: one entry waiting in the pending queue. -/
def exPendStore : Store :=
  { feeds := [exFeed], entries := [exEntry], pending := [1], scored := [], errors := [],
    next_entry_id := 2 }

/-- Fixture: the entry of exFeed once scored 9. -/
def exScoredEntry : FeedEntry :=
  { id := 1, feed_id := 1, guid := "g1", xml_content := "x1", score := some 9,
    scored_at := some 50 }

/-- Fixture: one scored entry waiting in the scored queue. -/
def exScoredStore : Store :=
  { feeds := [exFeed], entries := [exScoredEntry], pending := [], scored := [1], errors := [],
    next_entry_id := 2 }

/-- Fixture: an empty store holding only exFeed. -/
def exEmptyStore : Store :=
  { feeds := [exFeed], entries := [], pending := [], scored := [], errors := [],
    next_entry_id := 1 }

/-- Fixture: extractors that find no element in the payload. -/
def noExtract : String → Option String := fun _ => none

/-- Fixture: one fetched RSS entry. -/
def exRss : RssEntry := { guid := "g1", title := none, xml_content := "x1" }

/-- Fixture: a 201-character summary. -/
def exLongSummary : String := String.mk (List.replicate 201 'a')

/-- Fixture: the entry of exFeed scored below the Discord threshold. -/
def exLowEntry : FeedEntry := { exScoredEntry with score := some 7 }

/-- Fixture: one below-threshold entry waiting in the scored queue. -/
def exLowStore : Store := { exScoredStore with entries := [exLowEntry] }

/-- Fixture: the entry of exFeed sitting in the scored queue with a NULL
score column. -/
def exNullEntry : FeedEntry := { exScoredEntry with score := none }

/-- Fixture: one null-score entry waiting in the scored queue. -/
def exNullStore : Store := { exScoredStore with entries := [exNullEntry] }

/-
Lemmas about the store helpers.
-/

theorem selectFeed_mem (feeds : List Feed) (f : Feed) (h : selectFeed feeds = some f) :
    f ∈ feeds := by
  induction feeds with
  | nil => simp [selectFeed] at h
  | cons a rest ih =>
    rw [selectFeed] at h
    split at h
    · simp only [Option.some.injEq] at h
      exact h ▸ List.mem_cons_self a rest
    · rename_i g hr
      split at h
      · simp only [Option.some.injEq] at h
        exact List.mem_cons_of_mem a (ih (h ▸ hr))
      · simp only [Option.some.injEq] at h
        exact h ▸ List.mem_cons_self a rest

theorem find?_updateFeedAfterPoll (feeds : List Feed) (fid : Nat) (now : Time) (fr : Int)
    (h : ∃ f ∈ feeds, f.id = fid) :
    ((updateFeedAfterPoll feeds fid now fr).find? (fun f => f.id == fid)).map
        Feed.frequency_seconds = some fr := by
  induction feeds with
  | nil => simp at h
  | cons a rest ih =>
    by_cases ha : a.id = fid
    · simp [updateFeedAfterPoll, List.find?_cons_of_pos, ha]
    · obtain ⟨f, hf, hfid⟩ := h
      rcases List.mem_cons.mp hf with rfl | hfr
      · exact absurd hfid ha
      · have hrest := ih ⟨f, hfr, hfid⟩
        simpa [updateFeedAfterPoll, List.find?_cons_of_neg, ha] using hrest

theorem find?_setLastChecked (feeds : List Feed) (fid : Nat) (now : Time)
    (h : ∃ f ∈ feeds, f.id = fid) :
    ∃ f, feeds.find? (fun x => x.id == fid) = some f ∧
      (setLastChecked feeds fid now).find? (fun x => x.id == fid)
        = some { f with last_checked := some now } := by
  induction feeds with
  | nil => simp at h
  | cons a rest ih =>
    by_cases ha : a.id = fid
    · exact ⟨a, by simp [List.find?_cons_of_pos, ha],
        by simp [setLastChecked, List.find?_cons_of_pos, ha]⟩
    · obtain ⟨f, hf, hfid⟩ := h
      rcases List.mem_cons.mp hf with rfl | hfr
      · exact absurd hfid ha
      · obtain ⟨f', h1, h2⟩ := ih ⟨f, hfr, hfid⟩
        refine ⟨f', ?_, ?_⟩
        · simpa [List.find?_cons_of_neg, ha] using h1
        · simpa [setLastChecked, List.find?_cons_of_neg, ha] using h2

theorem insertEntries_feeds (fid : Nat) (es : List RssEntry) (st : Store) :
    (insertEntries fid es st).1.feeds = st.feeds := by
  induction es generalizing st with
  | nil => rfl
  | cons e rest ih =>
    rw [insertEntries]
    split
    · exact ih st
    · exact ih _

/-- The not-yet-due guard of process_next_feed evaluates to false for a
feed that is due at `now`. -/
theorem notDue_false (feed : Feed) (now : Time)
    (hdue : ∀ lc, feed.last_checked = some lc →
      lc + feed.frequency_seconds ≤ now) :
    (match feed.last_checked with
     | some lc => decide (now < lc + feed.frequency_seconds)
     | none => false) = false := by
  cases hlc : feed.last_checked with
  | none => rfl
  | some lc => simpa using not_lt.mpr (hdue lc hlc)

/-- C4: after a successful poll of a source whose interval starts within
[MIN, MAX], the committed interval is max(MIN, interval - STEP) when the
poll found at least one new item and min(MAX, interval + STEP) otherwise,
and it stays within [MIN, MAX]. -/
theorem C4_interval_adjust (fetch : String → Except String (List RssEntry))
    (now : Time) (st : Store) (feed : Feed) (es : List RssEntry)
    (hsel : selectFeed st.feeds = some feed)
    (hdue : ∀ lc, feed.last_checked = some lc →
      lc + feed.frequency_seconds ≤ now)
    (hfetch : fetch feed.url = Except.ok es)
    (hlo : MIN_FREQUENCY_SECONDS ≤ feed.frequency_seconds)
    (hhi : feed.frequency_seconds ≤ MAX_FREQUENCY_SECONDS) :
    (findFeed (process_next_feed fetch now st).2 feed.id).map Feed.frequency_seconds
      = some (if (insertEntries feed.id es st).2 > 0 then
          max MIN_FREQUENCY_SECONDS (feed.frequency_seconds - FREQUENCY_ADJUSTMENT_SECONDS)
        else
          min MAX_FREQUENCY_SECONDS (feed.frequency_seconds + FREQUENCY_ADJUSTMENT_SECONDS))
    ∧ MIN_FREQUENCY_SECONDS ≤
        (if (insertEntries feed.id es st).2 > 0 then
          max MIN_FREQUENCY_SECONDS (feed.frequency_seconds - FREQUENCY_ADJUSTMENT_SECONDS)
        else
          min MAX_FREQUENCY_SECONDS (feed.frequency_seconds + FREQUENCY_ADJUSTMENT_SECONDS))
    ∧ (if (insertEntries feed.id es st).2 > 0 then
          max MIN_FREQUENCY_SECONDS (feed.frequency_seconds - FREQUENCY_ADJUSTMENT_SECONDS)
        else
          min MAX_FREQUENCY_SECONDS (feed.frequency_seconds + FREQUENCY_ADJUSTMENT_SECONDS))
        ≤ MAX_FREQUENCY_SECONDS := by
  have hmem : ∃ f ∈ st.feeds, f.id = feed.id := ⟨feed, selectFeed_mem _ _ hsel, rfl⟩
  refine ⟨?_, ?_, ?_⟩
  · simp only [process_next_feed, hsel]
    rw [notDue_false feed now hdue]
    simp only [Bool.false_eq_true, if_false, hfetch, findFeed]
    rw [insertEntries_feeds]
    exact find?_updateFeedAfterPoll st.feeds feed.id now _ hmem
  · split <;>
      simp only [MIN_FREQUENCY_SECONDS, MAX_FREQUENCY_SECONDS,
        FREQUENCY_ADJUSTMENT_SECONDS] at * <;> omega
  · split <;>
      simp only [MIN_FREQUENCY_SECONDS, MAX_FREQUENCY_SECONDS,
        FREQUENCY_ADJUSTMENT_SECONDS] at * <;> omega

theorem C4_witness :
    (findFeed (process_next_feed (fun _ => Except.ok [exRss]) 0 exEmptyStore).2
        exFeed.id).map Feed.frequency_seconds
      = some (if (insertEntries exFeed.id [exRss] exEmptyStore).2 > 0 then
          max MIN_FREQUENCY_SECONDS (exFeed.frequency_seconds - FREQUENCY_ADJUSTMENT_SECONDS)
        else
          min MAX_FREQUENCY_SECONDS (exFeed.frequency_seconds + FREQUENCY_ADJUSTMENT_SECONDS))
    ∧ MIN_FREQUENCY_SECONDS ≤
        (if (insertEntries exFeed.id [exRss] exEmptyStore).2 > 0 then
          max MIN_FREQUENCY_SECONDS (exFeed.frequency_seconds - FREQUENCY_ADJUSTMENT_SECONDS)
        else
          min MAX_FREQUENCY_SECONDS (exFeed.frequency_seconds + FREQUENCY_ADJUSTMENT_SECONDS))
    ∧ (if (insertEntries exFeed.id [exRss] exEmptyStore).2 > 0 then
          max MIN_FREQUENCY_SECONDS (exFeed.frequency_seconds - FREQUENCY_ADJUSTMENT_SECONDS)
        else
          min MAX_FREQUENCY_SECONDS (exFeed.frequency_seconds + FREQUENCY_ADJUSTMENT_SECONDS))
        ≤ MAX_FREQUENCY_SECONDS :=
  C4_interval_adjust (fun _ => Except.ok [exRss]) 0 exEmptyStore exFeed [exRss]
    rfl (by intro lc h; simp [exFeed] at h) rfl (by decide) (by decide)

/-- C7: when the decoder call fails, the iteration sets only the source's
lastChecked to now, leaves its interval unchanged, and creates no items
and no queue rows. -/
theorem C7_decoder_failure (fetch : String → Except String (List RssEntry))
    (now : Time) (st : Store) (feed : Feed) (msg : String)
    (hsel : selectFeed st.feeds = some feed)
    (hdue : ∀ lc, feed.last_checked = some lc →
      lc + feed.frequency_seconds ≤ now)
    (hfetch : fetch feed.url = Except.error msg) :
    sameEntriesAndQueues (process_next_feed fetch now st).2 st
    ∧ (findFeed (process_next_feed fetch now st).2 feed.id).map Feed.last_checked
        = some (some now)
    ∧ (findFeed (process_next_feed fetch now st).2 feed.id).map Feed.frequency_seconds
        = (findFeed st feed.id).map Feed.frequency_seconds := by
  have hmem : ∃ f ∈ st.feeds, f.id = feed.id := ⟨feed, selectFeed_mem _ _ hsel, rfl⟩
  have hred : (process_next_feed fetch now st).2
      = { st with feeds := setLastChecked st.feeds feed.id now } := by
    simp only [process_next_feed, hsel]
    rw [notDue_false feed now hdue]
    simp only [Bool.false_eq_true, if_false, hfetch]
  obtain ⟨f, h1, h2⟩ := find?_setLastChecked st.feeds feed.id now hmem
  rw [hred]
  exact ⟨⟨rfl, rfl, rfl, rfl, rfl⟩, by simp [findFeed, h2], by simp [findFeed, h1, h2]⟩

theorem take_length_of_lt (s : String) (n : Nat) (h : n < s.length) :
    (s.take n).length = n := by
  have hd : s.data.length = s.length := rfl
  rw [String.take_eq, String.length_mk, List.length_take]
  omega

theorem isEmpty_false_of_long (s : String) (h : 0 < s.length) :
    s.isEmpty = false := by
  by_cases he : s.isEmpty = true
  · have : s = "" := (String.isEmpty_iff s).mp he
    rw [this] at h
    simp at h
  · simpa using he

/-- C8 counterexample: for a 201-character summary the rendered summary
line is the first 197 characters plus "...", which differs from the claim
wording of the first 200 characters plus "...". -/
theorem C8_counterexample :
    exLongSummary.length = 201
    ∧ format_news_lines (fun _ => "9.0") "T" "L" 9 "F" (some exLongSummary)
      = ["**9.0** Â· F", "", "**T**", exLongSummary.take 197 ++ "...", "", "L"]
    ∧ ((format_news_lines (fun _ => "9.0") "T" "L" 9 "F" (some exLongSummary)).getD 3 "")
      ≠ claimed_summary_line exLongSummary := by
  decide

/-- C8 (amended): a summary longer than 200 characters is rendered as its
first 197 characters followed by "..." — a 200-character line; every
present summary of at most 200 characters is rendered unmodified; an
absent summary produces no summary line at all. -/
theorem C8_summary_truncation (fm : ℚ → String) (title link : String) (q : ℚ)
    (fn : String) (s s' : String) (h : 200 < s.length)
    (h1 : s'.length ≤ 200) (h2 : s'.isEmpty = false) :
    format_news_lines fm title link q fn (some s)
      = ["**" ++ fm q ++ "** Â· " ++ fn, "", "**" ++ title ++ "**",
         s.take 197 ++ "...", "", link]
    ∧ (s.take 197 ++ "...").length = 200
    ∧ format_news_lines fm title link q fn (some s')
      = ["**" ++ fm q ++ "** Â· " ++ fn, "", "**" ++ title ++ "**",
         s', "", link]
    ∧ format_news_lines fm title link q fn none
      = ["**" ++ fm q ++ "** Â· " ++ fn, "", "**" ++ title ++ "**", "", link]
    ∧ format_news_message fm title link q fn (some s)
      = String.intercalate "\n" ["**" ++ fm q ++ "** Â· " ++ fn, "",
          "**" ++ title ++ "**", s.take 197 ++ "...", "", link] := by
  have h197 : (s.take 197).length = 197 := take_length_of_lt s 197 (by omega)
  have hne : s.isEmpty = false := isEmpty_false_of_long s (by omega)
  have hshort : ¬ s'.length > 200 := by omega
  have hl1 : format_news_lines fm title link q fn (some s)
      = ["**" ++ fm q ++ "** Â· " ++ fn, "", "**" ++ title ++ "**",
         s.take 197 ++ "...", "", link] := by
    simp [format_news_lines, hne, h]
  refine ⟨hl1, ?_, ?_, ?_, ?_⟩
  · rw [String.length_append, h197]
    rfl
  · simp [format_news_lines, h2, hshort]
  · simp [format_news_lines]
  · simp only [format_news_message]
    rw [hl1]

theorem C8_witness :
    format_news_lines (fun _ => "9.0") "T" "L" 9 "F" (some exLongSummary)
      = ["**" ++ (fun (_ : ℚ) => "9.0") 9 ++ "** Â· " ++ "F", "", "**" ++ "T" ++ "**",
         exLongSummary.take 197 ++ "...", "", "L"]
    ∧ (exLongSummary.take 197 ++ "...").length = 200
    ∧ format_news_lines (fun _ => "9.0") "T" "L" 9 "F" (some "short")
      = ["**" ++ (fun (_ : ℚ) => "9.0") 9 ++ "** Â· " ++ "F", "", "**" ++ "T" ++ "**",
         "short", "", "L"]
    ∧ format_news_lines (fun _ => "9.0") "T" "L" 9 "F" none
      = ["**" ++ (fun (_ : ℚ) => "9.0") 9 ++ "** Â· " ++ "F", "", "**" ++ "T" ++ "**", "", "L"]
    ∧ format_news_message (fun _ => "9.0") "T" "L" 9 "F" (some exLongSummary)
      = String.intercalate "\n" ["**" ++ (fun (_ : ℚ) => "9.0") 9 ++ "** Â· " ++ "F", "",
          "**" ++ "T" ++ "**", exLongSummary.take 197 ++ "...", "", "L"] :=
  C8_summary_truncation (fun _ => "9.0") "T" "L" 9 "F" exLongSummary "short"
    (by decide) (by decide) (by decide)

theorem any_false_filter_nil {α : Type} (l : List α) (p : α → Bool)
    (h : l.any p = false) : l.filter p = [] := by
  induction l with
  | nil => rfl
  | cons a rest ih =>
    simp only [List.any_cons, Bool.or_eq_false_iff] at h
    simp [List.filter_cons, h.1, ih h.2]

theorem find?_map_setScore (l : List FeedEntry) (pid : Nat) (fe : FeedEntry)
    (q : ℚ) (t : Time)
    (h : l.find? (fun x => x.id == pid) = some fe) :
    (l.map fun e =>
        if e.id == pid then { e with score := some q, scored_at := some t } else e).find?
      (fun x => x.id == pid) = some { fe with score := some q, scored_at := some t } := by
  induction l with
  | nil => simp at h
  | cons a rest ih =>
    by_cases ha : a.id = pid
    · rw [List.find?_cons_of_pos _ (by simp [ha])] at h
      obtain rfl : a = fe := Option.some.inj h
      simp only [List.map_cons]
      rw [if_pos (by simp [ha])]
      exact List.find?_cons_of_pos _ (by simp [ha])
    · rw [List.find?_cons_of_neg _ (by simp [ha])] at h
      simp only [List.map_cons]
      rw [if_neg (by simp [ha])]
      rw [List.find?_cons_of_neg _ (by simp [ha])]
      exact ih h

/-- C1 counterexample: a successful scoring run commits TWO transactions;
the first committed state already lacks the PendingSlot yet holds neither
a ScoredSlot nor an ErrorSlot, contradicting the claimed atomicity. -/
theorem C1_counterexample :
    exPendStore.pending = [1]
    ∧ (process_next_pending noExtract (fun _ => Except.ok (some 9)) 0 exPendStore).2.length = 2
    ∧ inPending ((process_next_pending noExtract (fun _ => Except.ok (some 9)) 0
        exPendStore).2.getD 0 exPendStore) 1 = false
    ∧ inScored ((process_next_pending noExtract (fun _ => Except.ok (some 9)) 0
        exPendStore).2.getD 0 exPendStore) 1 = false
    ∧ inErrors ((process_next_pending noExtract (fun _ => Except.ok (some 9)) 0
        exPendStore).2.getD 0 exPendStore) 1 = false
    ∧ inScored ((process_next_pending noExtract (fun _ => Except.ok (some 9)) 0
        exPendStore).2.getD 1 exPendStore) 1 = true := by
  decide

/-- C1 (amended): the scoring iteration commits the PendingSlot deletion
in its own transaction before the ranker call and the successor row in a
second transaction afterwards; the intermediate committed state has the
item in no queue, and the final committed state has the item out of
pending with exactly one of ScoredSlot / ErrorSlot present. -/
theorem C1_pending_two_transactions (eL : String → Option String)
    (rk : String → Except String (Option ℚ)) (now : Time) (st : Store)
    (pid : Nat) (rest : List Nat) (fe : FeedEntry)
    (hp : st.pending = pid :: rest)
    (hfind : st.entries.find? (fun x => x.id == pid) = some fe)
    (hrest : rest.any (fun x => x == pid) = false)
    (hsc : inScored st pid = false)
    (herr : inErrors st pid = false) :
    (process_next_pending eL rk now st).2.length = 2
    ∧ inPending ((process_next_pending eL rk now st).2.getD 0 st) pid = false
    ∧ inScored ((process_next_pending eL rk now st).2.getD 0 st) pid = false
    ∧ inErrors ((process_next_pending eL rk now st).2.getD 0 st) pid = false
    ∧ inPending ((process_next_pending eL rk now st).2.getD 1 st) pid = false
    ∧ inScored ((process_next_pending eL rk now st).2.getD 1 st) pid
        ≠ inErrors ((process_next_pending eL rk now st).2.getD 1 st) pid := by
  simp only [inScored] at hsc
  simp only [inErrors] at herr
  cases hr : rk ((eL fe.xml_content).getD fe.guid) with
  | error msg =>
    have hred : process_next_pending eL rk now st
        = (true, [{ st with pending := rest },
                  { st with pending := rest, errors := st.errors ++ [(pid, msg)] }]) := by
      simp only [process_next_pending, hp, hfind, hr]
    rw [hred]
    refine ⟨rfl, ?_, ?_, ?_, ?_, ?_⟩ <;>
      simp [inPending, inScored, inErrors, List.any_append, hrest, hsc, herr]
  | ok r =>
    by_cases h0 : r.getD 0 = 0
    · have hred : process_next_pending eL rk now st
          = (true, [{ st with pending := rest },
                    ⟨st.feeds, st.entries, rest, st.scored,
                      st.errors ++ [(pid, "Score returned 0")], st.next_entry_id⟩]) := by
        simp only [process_next_pending, hp, hfind, hr, beq_iff_eq]
        rw [if_pos h0]
      rw [hred]
      refine ⟨rfl, ?_, ?_, ?_, ?_, ?_⟩ <;>
        simp [inPending, inScored, inErrors, List.any_append, hrest, hsc, herr]
    · have hred : process_next_pending eL rk now st
          = (true, [{ st with pending := rest },
                    ⟨st.feeds,
                      st.entries.map fun e =>
                        if e.id == pid then
                          { e with score := some (r.getD 0), scored_at := some now }
                        else e,
                      rest, st.scored ++ [pid], st.errors, st.next_entry_id⟩]) := by
        simp only [process_next_pending, hp, hfind, hr, beq_iff_eq]
        rw [if_neg h0]
      rw [hred]
      refine ⟨rfl, ?_, ?_, ?_, ?_, ?_⟩ <;>
        simp [inPending, inScored, inErrors, List.any_append, hrest, hsc, herr]

theorem C1_witness :
    (process_next_pending noExtract (fun _ => Except.ok (some 9)) 0 exPendStore).2.length = 2
    ∧ inPending ((process_next_pending noExtract (fun _ => Except.ok (some 9)) 0
        exPendStore).2.getD 0 exPendStore) 1 = false
    ∧ inScored ((process_next_pending noExtract (fun _ => Except.ok (some 9)) 0
        exPendStore).2.getD 0 exPendStore) 1 = false
    ∧ inErrors ((process_next_pending noExtract (fun _ => Except.ok (some 9)) 0
        exPendStore).2.getD 0 exPendStore) 1 = false
    ∧ inPending ((process_next_pending noExtract (fun _ => Except.ok (some 9)) 0
        exPendStore).2.getD 1 exPendStore) 1 = false
    ∧ inScored ((process_next_pending noExtract (fun _ => Except.ok (some 9)) 0
        exPendStore).2.getD 1 exPendStore) 1
        ≠ inErrors ((process_next_pending noExtract (fun _ => Except.ok (some 9)) 0
        exPendStore).2.getD 1 exPendStore) 1 :=
  C1_pending_two_transactions noExtract (fun _ => Except.ok (some 9)) 0 exPendStore
    1 [] exEntry rfl rfl rfl rfl rfl

/-- C3 counterexample: a ranker result of -1 is committed as a ScoredSlot
whose stored rank is not positive, with no ErrorSlot, so neither of the
claim's alternatives holds after the iteration. -/
theorem C3_counterexample :
    (process_next_pending noExtract (fun _ => Except.ok (some (-1))) 0 exPendStore).1 = true
    ∧ inScored ((process_next_pending noExtract (fun _ => Except.ok (some (-1))) 0
        exPendStore).2.getD 1 exPendStore) 1 = true
    ∧ inErrors ((process_next_pending noExtract (fun _ => Except.ok (some (-1))) 0
        exPendStore).2.getD 1 exPendStore) 1 = false
    ∧ entryScoreOf ((process_next_pending noExtract (fun _ => Except.ok (some (-1))) 0
        exPendStore).2.getD 1 exPendStore) 1 = some (some (-1))
    ∧ scoredWithPositiveRank ((process_next_pending noExtract
        (fun _ => Except.ok (some (-1))) 0 exPendStore).2.getD 1 exPendStore) 1 = false := by
  decide

/-- C3 (amended): after one scoring iteration exactly one of
{ScoredSlot with nonzero stored rank, ErrorSlot} holds for the item, and
the recorded error message is the ranker failure message, or exactly
"Score returned 0" when the ranker produced a zero (or missing) rank. -/
theorem C3_scoring_outcomes (eL : String → Option String)
    (rk : String → Except String (Option ℚ)) (now : Time) (st : Store)
    (pid : Nat) (rest : List Nat) (fe : FeedEntry)
    (hp : st.pending = pid :: rest)
    (hfind : st.entries.find? (fun x => x.id == pid) = some fe)
    (hsc : inScored st pid = false)
    (herr : inErrors st pid = false) :
    scoredWithNonzeroRank ((process_next_pending eL rk now st).2.getD 1 st) pid
      ≠ inErrors ((process_next_pending eL rk now st).2.getD 1 st) pid
    ∧ errorMessagesOf ((process_next_pending eL rk now st).2.getD 1 st) pid
      = (match rk ((eL fe.xml_content).getD fe.guid) with
         | Except.error m => [m]
         | Except.ok r => if r.getD 0 = 0 then ["Score returned 0"] else []) := by
  have hfil := any_false_filter_nil st.errors (fun x => x.1 == pid) herr
  simp only [inScored] at hsc
  simp only [inErrors] at herr
  cases hr : rk ((eL fe.xml_content).getD fe.guid) with
  | error msg =>
    have hred : process_next_pending eL rk now st
        = (true, [{ st with pending := rest },
                  { st with pending := rest, errors := st.errors ++ [(pid, msg)] }]) := by
      simp only [process_next_pending, hp, hfind, hr]
    rw [hred]
    constructor
    · simp [scoredWithNonzeroRank, inScored, inErrors, List.any_append, hsc, herr]
    · simp [errorMessagesOf, List.filter_append, hfil]
  | ok r =>
    by_cases h0 : r.getD 0 = 0
    · have hred : process_next_pending eL rk now st
          = (true, [{ st with pending := rest },
                    ⟨st.feeds, st.entries, rest, st.scored,
                      st.errors ++ [(pid, "Score returned 0")], st.next_entry_id⟩]) := by
        simp only [process_next_pending, hp, hfind, hr, beq_iff_eq]
        rw [if_pos h0]
      rw [hred]
      constructor
      · simp [scoredWithNonzeroRank, inScored, inErrors, List.any_append, hsc, herr]
      · simp [errorMessagesOf, List.filter_append, hfil, if_pos h0]
    · have hred : process_next_pending eL rk now st
          = (true, [{ st with pending := rest },
                    ⟨st.feeds,
                      st.entries.map fun e =>
                        if e.id == pid then
                          { e with score := some (r.getD 0), scored_at := some now }
                        else e,
                      rest, st.scored ++ [pid], st.errors, st.next_entry_id⟩]) := by
        simp only [process_next_pending, hp, hfind, hr, beq_iff_eq]
        rw [if_neg h0]
      rw [hred]
      have hje : entryScoreOf
          (⟨st.feeds,
            st.entries.map fun e =>
              if e.id == pid then
                { e with score := some (r.getD 0), scored_at := some now }
              else e,
            rest, st.scored ++ [pid], st.errors, st.next_entry_id⟩ : Store) pid
          = some (some (r.getD 0)) := by
        simp only [entryScoreOf]
        rw [find?_map_setScore st.entries pid fe (r.getD 0) now hfind]
        rfl
      constructor
      · simp only [List.getD_cons_succ, List.getD_cons_zero, scoredWithNonzeroRank, hje]
        simp [inScored, inErrors, List.any_append, hsc, herr, h0]
      · simp [errorMessagesOf, hfil, if_neg h0]

theorem C3_witness :
    scoredWithNonzeroRank ((process_next_pending noExtract
        (fun _ => Except.ok (some 9)) 50 exPendStore).2.getD 1 exPendStore) 1
      ≠ inErrors ((process_next_pending noExtract
        (fun _ => Except.ok (some 9)) 50 exPendStore).2.getD 1 exPendStore) 1
    ∧ errorMessagesOf ((process_next_pending noExtract
        (fun _ => Except.ok (some 9)) 50 exPendStore).2.getD 1 exPendStore) 1
      = (match (show String → Except String (Option ℚ) from fun _ => Except.ok (some 9))
            ((noExtract exEntry.xml_content).getD exEntry.guid) with
         | Except.error m => [m]
         | Except.ok r => if r.getD 0 = 0 then ["Score returned 0"] else []) :=
  C3_scoring_outcomes noExtract (fun _ => Except.ok (some 9)) 50 exPendStore
    1 [] exEntry rfl rfl rfl rfl

/-- C9: a scoring response that is a JSON object without a "rank" key is
handled exactly like rank 0: an ErrorSlot with message "Score returned 0"
is recorded, no ScoredSlot is created, and the item's score and scored_at
columns stay unset. -/
theorem C9_missing_rank_key (eL : String → Option String)
    (rk : String → Except String (Option ℚ)) (now : Time) (st : Store)
    (pid : Nat) (rest : List Nat) (fe : FeedEntry)
    (hp : st.pending = pid :: rest)
    (hfind : st.entries.find? (fun x => x.id == pid) = some fe)
    (hrk : rk ((eL fe.xml_content).getD fe.guid) = Except.ok none)
    (hscore : fe.score = none)
    (hsat : fe.scored_at = none)
    (hsc : inScored st pid = false)
    (herr : inErrors st pid = false) :
    errorMessagesOf ((process_next_pending eL rk now st).2.getD 1 st) pid
      = ["Score returned 0"]
    ∧ inScored ((process_next_pending eL rk now st).2.getD 1 st) pid = false
    ∧ entryScoreOf ((process_next_pending eL rk now st).2.getD 1 st) pid = some none
    ∧ entryScoredAtOf ((process_next_pending eL rk now st).2.getD 1 st) pid = some none := by
  have hfil := any_false_filter_nil st.errors (fun x => x.1 == pid) herr
  simp only [inScored] at hsc
  have hred : process_next_pending eL rk now st
      = (true, [{ st with pending := rest },
                ⟨st.feeds, st.entries, rest, st.scored,
                  st.errors ++ [(pid, "Score returned 0")], st.next_entry_id⟩]) := by
    simp only [process_next_pending, hp, hfind, hrk, Option.getD_none, beq_iff_eq]
    simp only [eq_self_iff_true, if_true]
  rw [hred]
  refine ⟨?_, ?_, ?_, ?_⟩
  · simp [errorMessagesOf, List.filter_append, hfil]
  · simpa [inScored] using hsc
  · simp [entryScoreOf, hfind, hscore]
  · simp [entryScoredAtOf, hfind, hsat]

theorem C9_witness :
    errorMessagesOf ((process_next_pending noExtract (fun _ => Except.ok none) 0
        exPendStore).2.getD 1 exPendStore) 1 = ["Score returned 0"]
    ∧ inScored ((process_next_pending noExtract (fun _ => Except.ok none) 0
        exPendStore).2.getD 1 exPendStore) 1 = false
    ∧ entryScoreOf ((process_next_pending noExtract (fun _ => Except.ok none) 0
        exPendStore).2.getD 1 exPendStore) 1 = some none
    ∧ entryScoredAtOf ((process_next_pending noExtract (fun _ => Except.ok none) 0
        exPendStore).2.getD 1 exPendStore) 1 = some none :=
  C9_missing_rank_key noExtract (fun _ => Except.ok none) 0 exPendStore 1 [] exEntry
    rfl rfl rfl rfl rfl rfl rfl

/-- C6: a scored slot whose item ranks strictly below DISCORD_MIN_SCORE
is deleted by one publishing iteration with zero Publisher calls, and the
item ends up in no queue. -/
theorem C6_threshold_skip (eT eL eS : String → Option String)
    (send : SendCall → PubResult) (st : Store) (sid : Nat) (rest : List Nat)
    (fe : FeedEntry) (q : ℚ)
    (hq : st.scored = sid :: rest)
    (hfind : st.entries.find? (fun x => x.id == sid) = some fe)
    (hscore : fe.score = some q)
    (hlt : q < DISCORD_MIN_SCORE)
    (hrest : rest.any (fun x => x == sid) = false)
    (hpend : inPending st sid = false)
    (herr : inErrors st sid = false) :
    (process_next_scored eT eL eS send st).1 = ScoredOutcome.done
    ∧ (process_next_scored eT eL eS send st).2.2 = []
    ∧ inScored (process_next_scored eT eL eS send st).2.1 sid = false
    ∧ inPending (process_next_scored eT eL eS send st).2.1 sid = false
    ∧ inErrors (process_next_scored eT eL eS send st).2.1 sid = false
    ∧ (process_next_scored eT eL eS send st).2.1.scored = rest := by
  have hred : process_next_scored eT eL eS send st
      = (ScoredOutcome.done, { st with scored := rest }, []) := by
    simp only [process_next_scored, hq, hfind, hscore, Option.getD_some]
    rw [if_pos hlt]
  rw [hred]
  exact ⟨rfl, rfl, by simpa [inScored] using hrest, by simpa [inPending] using hpend,
    by simpa [inErrors] using herr, rfl⟩

theorem C6_witness :
    (process_next_scored noExtract noExtract noExtract (fun _ => PubResult.ret true)
        exLowStore).1 = ScoredOutcome.done
    ∧ (process_next_scored noExtract noExtract noExtract (fun _ => PubResult.ret true)
        exLowStore).2.2 = []
    ∧ inScored (process_next_scored noExtract noExtract noExtract
        (fun _ => PubResult.ret true) exLowStore).2.1 1 = false
    ∧ inPending (process_next_scored noExtract noExtract noExtract
        (fun _ => PubResult.ret true) exLowStore).2.1 1 = false
    ∧ inErrors (process_next_scored noExtract noExtract noExtract
        (fun _ => PubResult.ret true) exLowStore).2.1 1 = false
    ∧ (process_next_scored noExtract noExtract noExtract (fun _ => PubResult.ret true)
        exLowStore).2.1.scored = [] :=
  C6_threshold_skip noExtract noExtract noExtract (fun _ => PubResult.ret true)
    exLowStore 1 [] exLowEntry 7 rfl rfl rfl (by decide) rfl (by decide) (by decide)

/-- C10: a scored slot whose item has a NULL score is treated as score 0;
with a positive threshold the iteration deletes the slot through the
threshold-skip path and makes no Publisher call. -/
theorem C10_null_score (eT eL eS : String → Option String)
    (send : SendCall → PubResult) (st : Store) (sid : Nat) (rest : List Nat)
    (fe : FeedEntry)
    (hq : st.scored = sid :: rest)
    (hfind : st.entries.find? (fun x => x.id == sid) = some fe)
    (hscore : fe.score = none)
    (hrest : rest.any (fun x => x == sid) = false)
    (hthr : (0 : ℚ) < DISCORD_MIN_SCORE) :
    (process_next_scored eT eL eS send st).1 = ScoredOutcome.done
    ∧ (process_next_scored eT eL eS send st).2.2 = []
    ∧ inScored (process_next_scored eT eL eS send st).2.1 sid = false
    ∧ (process_next_scored eT eL eS send st).2.1.scored = rest := by
  have hred : process_next_scored eT eL eS send st
      = (ScoredOutcome.done, { st with scored := rest }, []) := by
    simp only [process_next_scored, hq, hfind, hscore, Option.getD_none]
    rw [if_pos hthr]
  rw [hred]
  exact ⟨rfl, rfl, by simpa [inScored] using hrest, rfl⟩

theorem C10_witness :
    (process_next_scored noExtract noExtract noExtract (fun _ => PubResult.ret true)
        exNullStore).1 = ScoredOutcome.done
    ∧ (process_next_scored noExtract noExtract noExtract (fun _ => PubResult.ret true)
        exNullStore).2.2 = []
    ∧ inScored (process_next_scored noExtract noExtract noExtract
        (fun _ => PubResult.ret true) exNullStore).2.1 1 = false
    ∧ (process_next_scored noExtract noExtract noExtract (fun _ => PubResult.ret true)
        exNullStore).2.1.scored = [] :=
  C10_null_score noExtract noExtract noExtract (fun _ => PubResult.ret true)
    exNullStore 1 [] exNullEntry rfl rfl rfl rfl (by decide)

/-- C2 counterexample: on a Publisher rate-limit signal the ScoredSlot is
NOT still present after the iteration — the claim transaction already
deleted it unconditionally. -/
theorem C2_counterexample :
    inScored exScoredStore 1 = true
    ∧ (process_next_scored noExtract noExtract noExtract
        (fun _ => PubResult.exn "Rate limit hit") exScoredStore).1
      = ScoredOutcome.rateLimited
    ∧ inScored (process_next_scored noExtract noExtract noExtract
        (fun _ => PubResult.exn "Rate limit hit") exScoredStore).2.1 1 = false := by
  decide

/-- C2 (amended): on a Publisher rate-limit signal the iteration returns
rate_limited but the ScoredSlot has already been deleted; the worker arms
backoffUntil = now + DISCORD_RATE_LIMIT_BACKOFF_SECONDS, and any worker
iteration strictly before that instant sleeps without touching the store
or calling the Publisher. -/
theorem C2_rate_limit_backoff (eT eL eS : String → Option String)
    (send : SendCall → PubResult) (msg : String) (st st' : Store)
    (sid : Nat) (rest : List Nat) (fe : FeedEntry) (now t : Time)
    (hq : st.scored = sid :: rest)
    (hfind : st.entries.find? (fun x => x.id == sid) = some fe)
    (hrest : rest.any (fun x => x == sid) = false)
    (hth : ¬ fe.score.getD 0 < DISCORD_MIN_SCORE)
    (hsend : ∀ c, send c = PubResult.exn msg)
    (hmsg : isRateLimitMessage msg = true)
    (ht : t < now + DISCORD_RATE_LIMIT_BACKOFF_SECONDS) :
    (process_next_scored eT eL eS send st).1 = ScoredOutcome.rateLimited
    ∧ inScored (process_next_scored eT eL eS send st).2.1 sid = false
    ∧ (discord_worker_step eT eL eS send none now st).1
        = some (now + DISCORD_RATE_LIMIT_BACKOFF_SECONDS)
    ∧ inScored (discord_worker_step eT eL eS send none now st).2.1 sid = false
    ∧ discord_worker_step eT eL eS send
        (some (now + DISCORD_RATE_LIMIT_BACKOFF_SECONDS)) t st'
      = (some (now + DISCORD_RATE_LIMIT_BACKOFF_SECONDS), st', []) := by
  have h1 : (process_next_scored eT eL eS send st).1 = ScoredOutcome.rateLimited := by
    simp only [process_next_scored, hq, hfind]
    rw [if_neg hth, hsend]
    simp [hmsg]
  have h2 : (process_next_scored eT eL eS send st).2.1 = { st with scored := rest } := by
    simp only [process_next_scored, hq, hfind]
    rw [if_neg hth, hsend]
    simp [hmsg]
  have hwork : discord_worker_step eT eL eS send none now st
      = discord_step_run eT eL eS send now st := rfl
  have hrun : (discord_step_run eT eL eS send now st).1
        = some (now + DISCORD_RATE_LIMIT_BACKOFF_SECONDS)
      ∧ (discord_step_run eT eL eS send now st).2.1
        = { st with scored := rest } := by
    constructor <;> simp only [discord_step_run, h1, h2]
  refine ⟨h1, ?_, ?_, ?_, ?_⟩
  · rw [h2]
    simpa [inScored] using hrest
  · rw [hwork]
    exact hrun.1
  · rw [hwork, hrun.2]
    simpa [inScored] using hrest
  · simp only [discord_worker_step]
    rw [if_pos ht]

theorem C2_witness :
    (process_next_scored noExtract noExtract noExtract
        (fun _ => PubResult.exn "Rate limit hit") exScoredStore).1
      = ScoredOutcome.rateLimited
    ∧ inScored (process_next_scored noExtract noExtract noExtract
        (fun _ => PubResult.exn "Rate limit hit") exScoredStore).2.1 1 = false
    ∧ (discord_worker_step noExtract noExtract noExtract
        (fun _ => PubResult.exn "Rate limit hit") none 100 exScoredStore).1
      = some (100 + DISCORD_RATE_LIMIT_BACKOFF_SECONDS)
    ∧ inScored (discord_worker_step noExtract noExtract noExtract
        (fun _ => PubResult.exn "Rate limit hit") none 100 exScoredStore).2.1 1 = false
    ∧ discord_worker_step noExtract noExtract noExtract
        (fun _ => PubResult.exn "Rate limit hit")
        (some (100 + DISCORD_RATE_LIMIT_BACKOFF_SECONDS)) 150 exScoredStore
      = (some (100 + DISCORD_RATE_LIMIT_BACKOFF_SECONDS), exScoredStore, []) :=
  C2_rate_limit_backoff noExtract noExtract noExtract
    (fun _ => PubResult.exn "Rate limit hit") "Rate limit hit" exScoredStore exScoredStore
    1 [] exScoredEntry 100 150 rfl rfl rfl (by decide) (fun _ => rfl) (by decide) (by decide)

theorem C7_witness :
    sameEntriesAndQueues (process_next_feed (fun _ => Except.error "boom") 0 exPendStore).2
        exPendStore
    ∧ (findFeed (process_next_feed (fun _ => Except.error "boom") 0 exPendStore).2
          exFeed.id).map Feed.last_checked = some (some 0)
    ∧ (findFeed (process_next_feed (fun _ => Except.error "boom") 0 exPendStore).2
          exFeed.id).map Feed.frequency_seconds
        = (findFeed exPendStore exFeed.id).map Feed.frequency_seconds :=
  C7_decoder_failure (fun _ => Except.error "boom") 0 exPendStore exFeed "boom"
    rfl (by intro lc h; simp [exFeed] at h) rfl

/-
Lemmas for C5: structure of one insertEntries pass and idempotence of
repeated polling runs.
-/

theorem insertEntries_decomp (fid : Nat) (es : List RssEntry) (st : Store) :
    (insertEntries fid es st).1.entries = st.entries ++ insertedEntries fid es st
    ∧ (insertEntries fid es st).1.pending
        = st.pending ++ (insertedEntries fid es st).map FeedEntry.id
    ∧ (insertEntries fid es st).1.next_entry_id
        = st.next_entry_id + (insertedEntries fid es st).length
    ∧ (insertEntries fid es st).2 = (insertedEntries fid es st).length
    ∧ (insertEntries fid es st).1.scored = st.scored
    ∧ (insertEntries fid es st).1.errors = st.errors := by
  induction es generalizing st with
  | nil => simp [insertEntries, insertedEntries]
  | cons e rest ih =>
    by_cases hc : st.entries.any (fun fe => fe.feed_id == fid && fe.guid == e.guid) = true
    · rw [insertEntries, insertedEntries, if_pos hc, if_pos hc]
      exact ih st
    · rw [insertEntries, insertedEntries, if_neg hc, if_neg hc]
      obtain ⟨h1, h2, h3, h4, h5, h6⟩ := ih
        ⟨st.feeds, st.entries ++ [⟨st.next_entry_id, fid, e.guid, e.xml_content, none, none⟩],
          st.pending ++ [st.next_entry_id], st.scored, st.errors, st.next_entry_id + 1⟩
      refine ⟨?_, ?_, ?_, ?_, ?_, ?_⟩
      · simpa [List.append_assoc] using h1
      · simpa [List.append_assoc] using h2
      · simp only [h3, List.length_cons]
        omega
      · simp [h4]
      · simpa using h5
      · simpa using h6

theorem insertEntries_covers (fid : Nat) (es : List RssEntry) (st : Store) :
    ∀ e ∈ es, (insertEntries fid es st).1.entries.any
      (fun fe => fe.feed_id == fid && fe.guid == e.guid) = true := by
  induction es generalizing st with
  | nil => simp
  | cons e0 rest ih =>
    intro e he
    by_cases hc : st.entries.any (fun fe => fe.feed_id == fid && fe.guid == e0.guid) = true
    · rw [insertEntries, if_pos hc]
      rcases List.mem_cons.mp he with rfl | hr
      · rw [(insertEntries_decomp fid rest st).1, List.any_append, hc]
        rfl
      · exact ih st e hr
    · rw [insertEntries, if_neg hc]
      rcases List.mem_cons.mp he with rfl | hr
      · rw [(insertEntries_decomp fid rest _).1]
        simp [List.any_append]
      · exact ih _ e hr

theorem insertEntries_noop (fid : Nat) (es : List RssEntry) (st : Store)
    (h : ∀ e ∈ es, st.entries.any
      (fun fe => fe.feed_id == fid && fe.guid == e.guid) = true) :
    insertEntries fid es st = (st, 0) := by
  induction es with
  | nil => rfl
  | cons e rest ih =>
    rw [insertEntries, if_pos (h e (List.mem_cons_self e rest))]
    exact ih fun e' he' => h e' (List.mem_cons_of_mem _ he')

theorem inserted_ids (fid : Nat) (es : List RssEntry) (st : Store) :
    (insertedEntries fid es st).map FeedEntry.id
      = List.range' st.next_entry_id (insertedEntries fid es st).length := by
  induction es generalizing st with
  | nil => rfl
  | cons e rest ih =>
    rw [insertedEntries]
    split
    · exact ih st
    · simp only [List.map_cons, List.length_cons, ih]
      rfl

theorem inserted_feed_ids (fid : Nat) (es : List RssEntry) (st : Store) :
    ∀ fe ∈ insertedEntries fid es st, fe.feed_id = fid := by
  induction es generalizing st with
  | nil => simp [insertedEntries]
  | cons e rest ih =>
    rw [insertedEntries]
    split
    · exact ih st
    · intro fe hfe
      rcases List.mem_cons.mp hfe with rfl | hr
      · rfl
      · exact ih _ fe hr

theorem inserted_id_ge (fid : Nat) (es : List RssEntry) (st : Store) :
    ∀ fe ∈ insertedEntries fid es st, st.next_entry_id ≤ fe.id := by
  intro fe hfe
  have hm : fe.id ∈ (insertedEntries fid es st).map FeedEntry.id :=
    List.mem_map_of_mem _ hfe
  rw [inserted_ids] at hm
  obtain ⟨i, _, hi⟩ := List.mem_range'.mp hm
  omega

theorem inserted_filter_present (fid : Nat) (es : List RssEntry) (st : Store) (g : String)
    (h : st.entries.any (fun fe => fe.feed_id == fid && fe.guid == g) = true) :
    (insertedEntries fid es st).filter (fun fe => fe.feed_id == fid && fe.guid == g)
      = [] := by
  induction es generalizing st with
  | nil => rfl
  | cons e rest ih =>
    by_cases hc : st.entries.any (fun fe => fe.feed_id == fid && fe.guid == e.guid) = true
    · rw [insertedEntries, if_pos hc]
      exact ih st h
    · rw [insertedEntries, if_neg hc]
      have hgg : e.guid ≠ g := by
        intro hgg
        rw [hgg] at hc
        exact hc h
      have h' : (st.entries ++ [(⟨st.next_entry_id, fid, e.guid, e.xml_content, none,
          none⟩ : FeedEntry)]).any (fun fe => fe.feed_id == fid && fe.guid == g) = true := by
        simp [List.any_append, h]
      simpa [List.filter_cons, hgg] using ih _ h'

theorem inserted_filter_fresh (fid : Nat) (es : List RssEntry) (st : Store) (g : String)
    (hg : g ∈ es.map RssEntry.guid)
    (h : st.entries.any (fun fe => fe.feed_id == fid && fe.guid == g) = false) :
    ((insertedEntries fid es st).filter
      (fun fe => fe.feed_id == fid && fe.guid == g)).length = 1 := by
  induction es generalizing st with
  | nil => simp at hg
  | cons e rest ih =>
    by_cases hgg : e.guid = g
    · subst hgg
      rw [insertedEntries, if_neg (by simp [h])]
      have hpres := inserted_filter_present fid rest
        ⟨st.feeds,
          st.entries ++ [⟨st.next_entry_id, fid, e.guid, e.xml_content, none, none⟩],
          st.pending ++ [st.next_entry_id], st.scored, st.errors, st.next_entry_id + 1⟩
        e.guid (by simp [List.any_append])
      simp [List.filter_cons, hpres]
    · have hg' : g ∈ rest.map RssEntry.guid := by
        simp only [List.map_cons, List.mem_cons] at hg
        rcases hg with hgeq | hgm
        · exact absurd hgeq.symm hgg
        · exact hgm
      rw [insertedEntries]
      split
      · exact ih st hg' h
      · have htail := ih
          ⟨st.feeds,
            st.entries ++ [⟨st.next_entry_id, fid, e.guid, e.xml_content, none, none⟩],
            st.pending ++ [st.next_entry_id], st.scored, st.errors, st.next_entry_id + 1⟩
          hg' (by simp [List.any_append, h, hgg])
        simpa [List.filter_cons, hgg] using htail

theorem countItems_insertEntries (fid : Nat) (es : List RssEntry) (st : Store) (g : String) :
    countItems (insertEntries fid es st).1 fid g
      = countItems st fid g
        + ((insertedEntries fid es st).filter
            (fun fe => fe.feed_id == fid && fe.guid == g)).length := by
  simp [countItems, (insertEntries_decomp fid es st).1, List.filter_append]

theorem countItems_eq_zero_iff (st : Store) (fid : Nat) (g : String) :
    countItems st fid g = 0
      ↔ st.entries.any (fun fe => fe.feed_id == fid && fe.guid == g) = false := by
  simp [countItems, List.length_eq_zero, List.filter_eq_nil_iff, List.any_eq_false]

theorem old_pending_filtered (st : Store) (inserted : List FeedEntry) (fid : Nat)
    (g : String)
    (hfresh : st.entries.any (fun fe => fe.feed_id == fid && fe.guid == g) = false)
    (hge : ∀ fe ∈ inserted, st.next_entry_id ≤ fe.id)
    (hwfp : ∀ i ∈ st.pending, i < st.next_entry_id) :
    st.pending.filter (fun i => (st.entries ++ inserted).any
        (fun fe => fe.id == i && fe.feed_id == fid && fe.guid == g)) = [] := by
  rw [List.filter_eq_nil_iff]
  intro i hi hcon
  obtain ⟨x, hx, hpx⟩ := List.any_eq_true.mp hcon
  obtain ⟨h12, hxg⟩ := Bool.and_eq_true_iff.mp hpx
  obtain ⟨hxi, hxf⟩ := Bool.and_eq_true_iff.mp h12
  rcases List.mem_append.mp hx with hold | hnew
  · exact List.any_eq_false.mp hfresh x hold (Bool.and_eq_true_iff.mpr ⟨hxf, hxg⟩)
  · have h1 : st.next_entry_id ≤ x.id := hge x hnew
    have h2 : i < st.next_entry_id := hwfp i hi
    have h3 : x.id = i := eq_of_beq hxi
    omega

theorem new_pending_count (fid : Nat) (g : String) :
    ∀ (inserted old : List FeedEntry) (a : Nat),
    (∀ fe ∈ old, fe.id < a) →
    inserted.map FeedEntry.id = List.range' a inserted.length →
    (∀ fe ∈ inserted, fe.feed_id = fid) →
    ((inserted.map FeedEntry.id).filter (fun i => (old ++ inserted).any
        (fun fe => fe.id == i && fe.feed_id == fid && fe.guid == g))).length
      = (inserted.filter (fun fe => fe.feed_id == fid && fe.guid == g)).length := by
  intro inserted
  induction inserted with
  | nil => intro old a _ _ _; rfl
  | cons fe rest ih =>
    intro old a hold hids hfid
    simp only [List.map_cons, List.length_cons, List.range'_succ] at hids
    injection hids with hfeid hrest
    have hrge : ∀ x ∈ rest, a + 1 ≤ x.id := by
      intro x hx
      have hm : x.id ∈ rest.map FeedEntry.id := List.mem_map_of_mem _ hx
      rw [hrest] at hm
      obtain ⟨i, _, hi⟩ := List.mem_range'.mp hm
      omega
    have hpa : ((old ++ fe :: rest).any
        (fun x => x.id == fe.id && x.feed_id == fid && x.guid == g))
        = (fe.feed_id == fid && fe.guid == g) := by
      cases hv : (fe.feed_id == fid && fe.guid == g) with
      | true =>
        obtain ⟨hvf, hvg⟩ := Bool.and_eq_true_iff.mp hv
        exact List.any_eq_true.mpr ⟨fe, by simp, by simp [hvf, hvg]⟩
      | false =>
        apply List.any_eq_false.mpr
        intro x hx hcon
        obtain ⟨hc12, hcg⟩ := Bool.and_eq_true_iff.mp hcon
        obtain ⟨hci, hcf⟩ := Bool.and_eq_true_iff.mp hc12
        have hxid : x.id = fe.id := eq_of_beq hci
        rcases List.mem_append.mp hx with hor | hor
        · have := hold x hor
          omega
        · rcases List.mem_cons.mp hor with heq | hor
          · subst heq
            have hcontr : (x.feed_id == fid && x.guid == g) = true :=
              Bool.and_eq_true_iff.mpr ⟨hcf, hcg⟩
            rw [hv] at hcontr
            exact Bool.false_ne_true hcontr
          · have := hrge x hor
            omega
    have hre : old ++ fe :: rest = (old ++ [fe]) ++ rest := by simp
    have hold' : ∀ x ∈ old ++ [fe], x.id < a + 1 := by
      intro x hx
      rcases List.mem_append.mp hx with hor | hor
      · have := hold x hor
        omega
      · rcases List.mem_cons.mp hor with rfl | hor
        · omega
        · simp at hor
    have htail := ih (old ++ [fe]) (a + 1) hold' hrest fun x hx =>
      hfid x (List.mem_cons_of_mem _ hx)
    simp only [List.map_cons, List.filter_cons]
    rw [hpa]
    simp only [hre]
    cases hv : (fe.feed_id == fid && fe.guid == g) with
    | true =>
      simp only [hv, eq_self_iff_true, if_true, List.length_cons, htail]
    | false =>
      simp only [hv, Bool.false_eq_true, if_false, htail]

theorem sameEntriesAndQueues_trans {a b c : Store} (h1 : sameEntriesAndQueues a b)
    (h2 : sameEntriesAndQueues b c) : sameEntriesAndQueues a c := by
  obtain ⟨x1, x2, x3, x4, x5⟩ := h1
  obtain ⟨y1, y2, y3, y4, y5⟩ := h2
  exact ⟨x1.trans y1, x2.trans y2, x3.trans y3, x4.trans y4, x5.trans y5⟩

theorem process_next_feed_noop (es : List RssEntry) (t : Time) (s : Store) (f : Feed)
    (hfeeds : s.feeds = [f])
    (hcov : ∀ e ∈ es, s.entries.any
      (fun fe => fe.feed_id == f.id && fe.guid == e.guid) = true) :
    ∃ f', (process_next_feed (fun _ => Except.ok es) t s).2.feeds = [f']
      ∧ f'.id = f.id
      ∧ sameEntriesAndQueues (process_next_feed (fun _ => Except.ok es) t s).2 s := by
  have hsel : selectFeed s.feeds = some f := by rw [hfeeds]; rfl
  have hins : insertEntries f.id es s = (s, 0) := insertEntries_noop f.id es s hcov
  cases hdue : (match f.last_checked with
      | some lc => decide (t < lc + f.frequency_seconds)
      | none => false) with
  | true =>
    have hred : process_next_feed (fun _ => Except.ok es) t s = (false, s) := by
      simp only [process_next_feed, hsel, hdue, eq_self_iff_true, if_true]
    rw [hred]
    exact ⟨f, hfeeds, rfl, rfl, rfl, rfl, rfl, rfl⟩
  | false =>
    have hred : (process_next_feed (fun _ => Except.ok es) t s).2
        = ⟨updateFeedAfterPoll s.feeds f.id t
            (min MAX_FREQUENCY_SECONDS (f.frequency_seconds + FREQUENCY_ADJUSTMENT_SECONDS)),
           s.entries, s.pending, s.scored, s.errors, s.next_entry_id⟩ := by
      simp only [process_next_feed, hsel, hdue, Bool.false_eq_true, if_false, hins,
        gt_iff_lt, lt_self_iff_false]
    rw [hred]
    refine ⟨⟨f.id, f.url, f.name, some t,
        min MAX_FREQUENCY_SECONDS (f.frequency_seconds + FREQUENCY_ADJUSTMENT_SECONDS)⟩,
      ?_, rfl, rfl, rfl, rfl, rfl, rfl⟩
    simp [updateFeedAfterPoll, hfeeds]

theorem pollRuns_noop (es : List RssEntry) (ts : List Time) (s : Store) (f : Feed)
    (hfeeds : s.feeds = [f])
    (hcov : ∀ e ∈ es, s.entries.any
      (fun fe => fe.feed_id == f.id && fe.guid == e.guid) = true) :
    sameEntriesAndQueues (pollRuns (fun _ => Except.ok es) ts s) s := by
  induction ts generalizing s f with
  | nil => exact ⟨rfl, rfl, rfl, rfl, rfl⟩
  | cons t ts ih =>
    obtain ⟨f', hf1, hf2, hsame⟩ := process_next_feed_noop es t s f hfeeds hcov
    rw [pollRuns]
    have hcov' : ∀ e ∈ es,
        (process_next_feed (fun _ => Except.ok es) t s).2.entries.any
          (fun fe => fe.feed_id == f'.id && fe.guid == e.guid) = true := by
      intro e he
      rw [hsame.1, hf2]
      exact hcov e he
    exact sameEntriesAndQueues_trans (ih _ f' hf1 hcov') hsame

theorem process_next_feed_ok_parts (es : List RssEntry) (t : Time) (st : Store) (f : Feed)
    (hsel : selectFeed st.feeds = some f)
    (hdue : ∀ lc, f.last_checked = some lc → lc + f.frequency_seconds ≤ t) :
    (process_next_feed (fun _ => Except.ok es) t st).2
      = ⟨updateFeedAfterPoll (insertEntries f.id es st).1.feeds f.id t
          (if (insertEntries f.id es st).2 > 0 then
            max MIN_FREQUENCY_SECONDS (f.frequency_seconds - FREQUENCY_ADJUSTMENT_SECONDS)
          else
            min MAX_FREQUENCY_SECONDS (f.frequency_seconds + FREQUENCY_ADJUSTMENT_SECONDS)),
         (insertEntries f.id es st).1.entries, (insertEntries f.id es st).1.pending,
         (insertEntries f.id es st).1.scored, (insertEntries f.id es st).1.errors,
         (insertEntries f.id es st).1.next_entry_id⟩ := by
  simp only [process_next_feed, hsel]
  rw [notDue_false f t hdue]
  simp only [Bool.false_eq_true, if_false]

/-- C5: with a decoder that always returns the same entries and a single
configured source, the first (due) polling run creates the item of a
fresh guid exactly once, with exactly one pending row for it, and any
number of further runs leaves entries and all queues exactly as the first
run left them. -/
theorem C5_upsert_idempotent (es : List RssEntry) (st : Store) (f₀ : Feed) (g : String)
    (t₁ : Time) (ts : List Time)
    (hfeeds : st.feeds = [f₀])
    (hdue : ∀ lc, f₀.last_checked = some lc → lc + f₀.frequency_seconds ≤ t₁)
    (hg : g ∈ es.map RssEntry.guid)
    (hfresh : countItems st f₀.id g = 0)
    (hwfe : ∀ fe ∈ st.entries, fe.id < st.next_entry_id)
    (hwfp : ∀ i ∈ st.pending, i < st.next_entry_id) :
    countItems (process_next_feed (fun _ => Except.ok es) t₁ st).2 f₀.id g = 1
    ∧ pendingCountForGuid (process_next_feed (fun _ => Except.ok es) t₁ st).2 f₀.id g = 1
    ∧ sameEntriesAndQueues
        (pollRuns (fun _ => Except.ok es) ts
          (process_next_feed (fun _ => Except.ok es) t₁ st).2)
        (process_next_feed (fun _ => Except.ok es) t₁ st).2 := by
  have hsel : selectFeed st.feeds = some f₀ := by rw [hfeeds]; rfl
  have hred := process_next_feed_ok_parts es t₁ st f₀ hsel hdue
  have hfreshB : st.entries.any
      (fun fe => fe.feed_id == f₀.id && fe.guid == g) = false :=
    (countItems_eq_zero_iff st f₀.id g).mp hfresh
  have hcount : countItems (process_next_feed (fun _ => Except.ok es) t₁ st).2 f₀.id g
      = 1 := by
    have h1 : countItems (process_next_feed (fun _ => Except.ok es) t₁ st).2 f₀.id g
        = countItems (insertEntries f₀.id es st).1 f₀.id g := by
      rw [hred]
      rfl
    rw [h1, countItems_insertEntries, hfresh,
      inserted_filter_fresh f₀.id es st g hg hfreshB]
  refine ⟨hcount, ?_, ?_⟩
  · have hdec := insertEntries_decomp f₀.id es st
    have h1 : pendingCountForGuid (process_next_feed (fun _ => Except.ok es) t₁ st).2 f₀.id g
        = ((st.pending ++ (insertedEntries f₀.id es st).map FeedEntry.id).filter
            (fun i => (st.entries ++ insertedEntries f₀.id es st).any
              (fun fe => fe.id == i && fe.feed_id == f₀.id && fe.guid == g))).length := by
      rw [hred]
      simp only [pendingCountForGuid]
      rw [show ((⟨_, (insertEntries f₀.id es st).1.entries,
          (insertEntries f₀.id es st).1.pending, _, _, _⟩ : Store)).pending
          = (insertEntries f₀.id es st).1.pending from rfl]
      rw [hdec.1, hdec.2.1]
    rw [h1, List.filter_append]
    rw [old_pending_filtered st (insertedEntries f₀.id es st) f₀.id g hfreshB
      (inserted_id_ge f₀.id es st) hwfp]
    rw [List.nil_append]
    rw [new_pending_count f₀.id g (insertedEntries f₀.id es st) st.entries
      st.next_entry_id hwfe (inserted_ids f₀.id es st) (inserted_feed_ids f₀.id es st)]
    exact inserted_filter_fresh f₀.id es st g hg hfreshB
  · have hifeeds : (insertEntries f₀.id es st).1.feeds = [f₀] := by
      rw [insertEntries_feeds, hfeeds]
    have hfeeds1 : (process_next_feed (fun _ => Except.ok es) t₁ st).2.feeds
        = [⟨f₀.id, f₀.url, f₀.name, some t₁,
            (if (insertEntries f₀.id es st).2 > 0 then
              max MIN_FREQUENCY_SECONDS
                (f₀.frequency_seconds - FREQUENCY_ADJUSTMENT_SECONDS)
            else
              min MAX_FREQUENCY_SECONDS
                (f₀.frequency_seconds + FREQUENCY_ADJUSTMENT_SECONDS))⟩] := by
      rw [hred]
      show updateFeedAfterPoll (insertEntries f₀.id es st).1.feeds f₀.id t₁ _ = _
      rw [hifeeds]
      simp [updateFeedAfterPoll]
    have hcov : ∀ e ∈ es,
        (process_next_feed (fun _ => Except.ok es) t₁ st).2.entries.any
          (fun fe => fe.feed_id == f₀.id && fe.guid == e.guid) = true := by
      intro e he
      have : (process_next_feed (fun _ => Except.ok es) t₁ st).2.entries
          = (insertEntries f₀.id es st).1.entries := by
        rw [hred]
      rw [this]
      exact insertEntries_covers f₀.id es st e he
    exact pollRuns_noop es ts _ _ hfeeds1 hcov

theorem C5_witness :
    countItems (process_next_feed (fun _ => Except.ok [exRss]) 0 exEmptyStore).2
        exFeed.id "g1" = 1
    ∧ pendingCountForGuid (process_next_feed (fun _ => Except.ok [exRss]) 0
        exEmptyStore).2 exFeed.id "g1" = 1
    ∧ sameEntriesAndQueues
        (pollRuns (fun _ => Except.ok [exRss]) [100, 20000]
          (process_next_feed (fun _ => Except.ok [exRss]) 0 exEmptyStore).2)
        (process_next_feed (fun _ => Except.ok [exRss]) 0 exEmptyStore).2 :=
  C5_upsert_idempotent [exRss] exEmptyStore exFeed "g1" 0 [100, 20000]
    rfl (by intro lc h; simp [exFeed] at h) (by decide) (by decide)
    (by intro fe hfe; simp [exEmptyStore] at hfe) (by intro i hi; simp [exEmptyStore] at hi)

end NewsFeed
